import Mathlib

/-!
Shallow embedding of the `local_elo` rating / matchmaking / knockout engine.

Source files embedded here:
* `local_elo/elo.py` — win probability, Elo update, redistribution, game recording
* `local_elo/game.py` — weighted selection of the two contestants of a bout
* `local_elo/db.py` — SQLite-backed persistence (files, games, knockout_state)
* `local_elo/knockout.py` — knockout state machine and two-phase pool curation
* `local_elo/commands.py` — result-command handling (`handle_game_result`)

Modelling conventions:
* Python floats are modelled as real numbers (exact arithmetic).
* SQLite tables are modelled as lists of rows; an SQL `UPDATE ... WHERE` is a
  `List.map` guarded by the row predicate, an `INSERT` is an append, and a
  caught `IntegrityError` on a primary-key conflict is an explicit membership
  test.  SQLite foreign keys are declared but never enabled by the program
  (no `PRAGMA foreign_keys` anywhere), so reference checks are *not* modelled.
* `random.choices(pop, weights, k=1)` is modelled by an oracle supplying a
  number that picks the chosen index; the call raises (here: `none`) when the
  total weight is not positive, exactly as CPython does.  Any index can be
  drawn by a suitable random value because every weight produced by the
  program's weight formulas is strictly positive (proved below).
* An SQL `ORDER BY` fixes only the sort keys; the relative order of rows with
  equal keys is left unspecified by SQLite.  Queries with an `ORDER BY` are
  therefore modelled relationally: a predicate accepting every permutation of
  the rows that is sorted by the given keys.
-/

namespace LocalElo

/-! ### Data model (`db.init_db` schema) -/

/-- The result strings `'A' | 'B' | 'tie'` stored with a game. -/
inductive GameResult
  | A
  | B
  | tie
deriving DecidableEq

/-- `K_FACTOR = 32` from `local_elo/__init__.py`. -/
def K_FACTOR : ℝ := 32

/-- `DEFAULT_ELO = 1000` from `local_elo/__init__.py`. -/
def DEFAULT_ELO : ℝ := 1000

/-- A row of the `files` table:
`id INTEGER PRIMARY KEY, path TEXT UNIQUE, elo REAL, wins/losses/ties INTEGER`. -/
structure FileRow where
  id : Nat
  path : String
  elo : ℝ
  wins : Nat
  losses : Nat
  ties : Nat

/-- A row of the `games` table (the autoincrement `id` column is the list position;
`timestamp DATETIME DEFAULT CURRENT_TIMESTAMP` is the `timestamp` field). -/
structure GameRow where
  file_a_id : Nat
  file_b_id : Nat
  result : GameResult
  timestamp : Nat
deriving DecidableEq

/-- A row of the `knockout_state` table:
`file_id INTEGER PRIMARY KEY, eliminated_at DATETIME DEFAULT CURRENT_TIMESTAMP`. -/
structure ElimRow where
  file_id : Nat
  eliminated_at : Nat
deriving DecidableEq

/-- The SQLite database state created by `db.init_db`.  The program never issues
`PRAGMA foreign_keys`, so SQLite's (off-by-default) foreign-key enforcement is
inactive: inserts into `games` and `knockout_state` succeed even when the
referenced `files` row does not exist. -/
structure DBState where
  files : List FileRow
  games : List GameRow
  knockout_state : List ElimRow

/-! ### Rating engine (`local_elo/elo.py`) -/

/-- `elo.calculate_win_probability`: `1.0 / (1.0 + 10.0 ** ((elo_b - elo_a) / 400.0))`. -/
noncomputable def calculate_win_probability (elo_a elo_b : ℝ) : ℝ :=
  1 / (1 + (10 : ℝ) ^ ((elo_b - elo_a) / 400))

/-- `elo.update_elo_ratings` (the pure part: the two new ratings it returns). -/
noncomputable def update_elo_ratings (elo_a elo_b : ℝ) (result : GameResult) : ℝ × ℝ :=
  let expected_a := calculate_win_probability elo_a elo_b
  let expected_b := 1 - expected_a
  let actual_a : ℝ := match result with | .A => 1 | .B => 0 | .tie => 0.5
  let actual_b : ℝ := match result with | .A => 0 | .B => 1 | .tie => 0.5
  (elo_a + K_FACTOR * (actual_a - expected_a), elo_b + K_FACTOR * (actual_b - expected_b))

/-- `UPDATE files SET elo = ?, wins = wins + 1 WHERE id = ?`. -/
def updateWin (files : List FileRow) (fid : Nat) (newElo : ℝ) : List FileRow :=
  files.map fun f => if f.id = fid then { f with elo := newElo, wins := f.wins + 1 } else f

/-- `UPDATE files SET elo = ?, losses = losses + 1 WHERE id = ?`. -/
def updateLoss (files : List FileRow) (fid : Nat) (newElo : ℝ) : List FileRow :=
  files.map fun f => if f.id = fid then { f with elo := newElo, losses := f.losses + 1 } else f

/-- `UPDATE files SET elo = ?, ties = ties + 1 WHERE id = ?`. -/
def updateTie (files : List FileRow) (fid : Nat) (newElo : ℝ) : List FileRow :=
  files.map fun f => if f.id = fid then { f with elo := newElo, ties := f.ties + 1 } else f

/-- `elo.record_game`: updates both ratings and the matching win/loss/tie counters,
then appends the game row.  A `WHERE id = ?` clause that matches no row simply
updates nothing, and with foreign keys unenforced the `INSERT INTO games`
always succeeds — there is no id-existence check anywhere on this path. -/
noncomputable def record_game (s : DBState) (file_a_id file_b_id : Nat)
    (elo_a elo_b : ℝ) (result : GameResult) (now : Nat) : DBState :=
  let new := update_elo_ratings elo_a elo_b result
  let files' :=
    match result with
    | .A => updateLoss (updateWin s.files file_a_id new.1) file_b_id new.2
    | .B => updateWin (updateLoss s.files file_a_id new.1) file_b_id new.2
    | .tie => updateTie (updateTie s.files file_a_id new.1) file_b_id new.2
  { s with
    files := files'
    games := s.games ++ [⟨file_a_id, file_b_id, result, now⟩] }

/-- `elo.redistribute_elo_delta`: no-op when `abs(delta) < 0.01`; otherwise counts
the rows with `id != skip_file_id`, no-op (a logged warning) when that count is
zero, and otherwise runs
`UPDATE files SET elo = elo + delta/count WHERE id != skip_file_id`. -/
noncomputable def redistribute_elo_delta (s : DBState) (delta : ℝ) (skip_file_id : Nat) :
    DBState :=
  if |delta| < 0.01 then s
  else
    let count := (s.files.filter fun f => f.id ≠ skip_file_id).length
    if count = 0 then s
    else
      { s with
        files := s.files.map fun f =>
          if f.id ≠ skip_file_id then { f with elo := f.elo + delta / count } else f }

/-! ### Persistence operations (`local_elo/db.py`) -/

/-- `db.save_elimination`: `INSERT INTO knockout_state (file_id) VALUES (?)`;
a primary-key conflict (the id is already marked) raises `IntegrityError`,
which the function catches and ignores, leaving the table unchanged. -/
def save_elimination (s : DBState) (file_id : Nat) (now : Nat) : DBState :=
  if s.knockout_state.any fun e => e.file_id = file_id then s
  else { s with knockout_state := s.knockout_state ++ [⟨file_id, now⟩] }

/-- A list is sorted into nonincreasing order of a real-valued key
(the guarantee an SQL `ORDER BY key DESC` gives). -/
def SortedDescBy {α : Type} (key : α → ℝ) (l : List α) : Prop :=
  l.Pairwise fun a b => key b ≤ key a

/-- `db.get_rankings` runs `SELECT id FROM files ORDER BY elo DESC` and numbers the
result.  The query orders by `elo` alone — no secondary sort key — so any
permutation of the rows that is nonincreasing in `elo` is a permitted result.
`get_rankings_spec s out` holds iff `out` is a permitted id sequence. -/
def get_rankings_spec (s : DBState) (out : List Nat) : Prop :=
  ∃ l : List FileRow, l.Perm s.files ∧ SortedDescBy FileRow.elo l ∧ out = l.map FileRow.id

/-- The rank dictionary built by `db.get_rankings` from the returned id sequence:
`rankings[file_id] = rank` with ranks starting at 1 in result order. -/
def rankMap (out : List Nat) : List (Nat × Nat) :=
  (out.enum).map fun p => (p.2, p.1 + 1)

/-- The `LEFT JOIN knockout_state` of `db.export_knockout_results`: a file row
together with its `eliminated_at` timestamp, if any. -/
def joinElim (s : DBState) (f : FileRow) : FileRow × Option Nat :=
  (f, ((s.knockout_state.find? fun e => e.file_id = f.id).map ElimRow.eliminated_at))

/-- The `ORDER BY` key of `db.export_knockout_results`, encoded so that the query
orders by this key ascending:
`CASE WHEN k.eliminated_at IS NULL THEN 0 ELSE 1 END, k.eliminated_at DESC, f.elo DESC`. -/
def exportKey (r : FileRow × Option Nat) : Nat × Int × ℝ :=
  (match r.2 with | none => 0 | some _ => 1,
   match r.2 with | none => 0 | some t => -(t : Int),
   -r.1.elo)

/-- Lexicographic comparison of export keys (ascending). -/
def exportKeyLE (r₁ r₂ : FileRow × Option Nat) : Prop :=
  (exportKey r₁).1 < (exportKey r₂).1
    ∨ ((exportKey r₁).1 = (exportKey r₂).1
        ∧ ((exportKey r₁).2.1 < (exportKey r₂).2.1
            ∨ ((exportKey r₁).2.1 = (exportKey r₂).2.1
                ∧ (exportKey r₁).2.2 ≤ (exportKey r₂).2.2)))

/-- `db.export_knockout_results` queries
`files LEFT JOIN knockout_state ORDER BY (eliminated IS NULL ...), eliminated_at DESC, elo DESC`
and writes the rows out in result order.  The `ORDER BY` key leaves the order of
rows with identical `(eliminated?, eliminated_at, elo)` triples unspecified, so
any permutation of the joined rows sorted by that key is a permitted result. -/
def export_results_spec (s : DBState) (out : List (FileRow × Option Nat)) : Prop :=
  out.Perm (s.files.map (joinElim s)) ∧ out.Pairwise exportKeyLE

/-! ### Match selector (`local_elo/game.py`) -/

/-- The selection weight of `game.select_first_player`:
`calculate_win_probability(elo, DEFAULT_ELO) * 1.0 / ((games_played + 1) ** power)`
with `games_played = wins + losses + ties`. -/
noncomputable def first_player_weight (power : ℝ) (f : FileRow) : ℝ :=
  calculate_win_probability f.elo DEFAULT_ELO
    * (1 / ((f.wins + f.losses + f.ties + 1 : ℝ) ^ power))

/-- The selection weight of `game.select_second_player` for a candidate, given the
first pick: the win probability of the weaker side against the stronger side. -/
noncomputable def second_player_weight (first : FileRow) (candidate : FileRow) : ℝ :=
  if first.elo > candidate.elo then calculate_win_probability candidate.elo first.elo
  else calculate_win_probability first.elo candidate.elo

/-- `random.choices(pop, weights=w, k=1)[0]`: raises `ValueError` (here `none`)
when the total weight is not positive; otherwise returns one element, chosen by
the random source (abstracted as the index `pick`, reduced modulo the population
size — every element with positive weight is drawable). -/
noncomputable def choicesOne {α : Type} (pop : List α) (weights : List ℝ) (pick : Nat) :
    Option α :=
  if weights.sum ≤ 0 then none
  else pop.get? (pick % pop.length)

/-- `game.select_first_player`: weighted random draw over the whole `files` list. -/
noncomputable def select_first_player (files : List FileRow) (power : ℝ) (pick : Nat) :
    Option FileRow :=
  choicesOne files (files.map (first_player_weight power)) pick

/-- `game.select_second_player`: removes the first pick by id, returns `none` on an
empty candidate list, otherwise draws by match-closeness weight. -/
noncomputable def select_second_player (files : List FileRow) (first : FileRow)
    (pick : Nat) : Option FileRow :=
  let candidates := files.filter fun f => f.id ≠ first.id
  if candidates.isEmpty then none
  else choicesOne candidates (candidates.map (second_player_weight first)) pick

/-! ### Result commands (`commands.handle_game_result` / `knockout.handle_game_result`) -/

/-- The validated result commands of the interactive loop
(`A, B, tie, A-, B-, A+, B+, TA-, TB-, T-`; `T` is normalized to `tie` by `main`). -/
inductive Cmd
  | A
  | B
  | tie
  | Aminus
  | Bminus
  | Aplus
  | Bplus
  | TAminus
  | TBminus
  | Tminus
deriving DecidableEq

/-- The base-result normalization at the top of `handle_game_result`:
commands in `['A-','B-','A+','B+']` are stripped of the suffix (`rstrip('-+')`),
commands in `['TA-','TB-','T-']` become `'tie'`, anything else is passed through. -/
def normalize_result : Cmd → GameResult
  | .Aminus => .A
  | .Bminus => .B
  | .Aplus => .A
  | .Bplus => .B
  | .TAminus => .tie
  | .TBminus => .tie
  | .Tminus => .tie
  | .A => .A
  | .B => .B
  | .tie => .tie

/-- `handle_game_result`: records the game under the normalized base result, then —
in knockout mode — adds the commanded eliminations to the in-memory set and the
`knockout_state` table, following the branch structure of the source
(`remove_winner`, `keep_loser`, and the explicit `TA-`/`TB-`/`T-` arms). -/
noncomputable def handle_game_result (s : DBState) (result : Cmd)
    (id_a id_b : Nat) (elo_a elo_b : ℝ) (knockout_mode : Bool)
    (eliminated : Finset Nat) (now : Nat) : DBState × Finset Nat :=
  let s₁ := record_game s id_a id_b elo_a elo_b (normalize_result result) now
  if knockout_mode then
    let remove_winner := result = Cmd.Aminus ∨ result = Cmd.Bminus
    let keep_loser := result = Cmd.Aplus ∨ result = Cmd.Bplus
    if result = Cmd.A ∨ result = Cmd.Aminus ∨ result = Cmd.Aplus then
      if remove_winner then (save_elimination s₁ id_a now, insert id_a eliminated)
      else if keep_loser then (s₁, eliminated)
      else (save_elimination s₁ id_b now, insert id_b eliminated)
    else if result = Cmd.B ∨ result = Cmd.Bminus ∨ result = Cmd.Bplus then
      if remove_winner then (save_elimination s₁ id_b now, insert id_b eliminated)
      else if keep_loser then (s₁, eliminated)
      else (save_elimination s₁ id_a now, insert id_a eliminated)
    else if result = Cmd.TAminus then
      (save_elimination s₁ id_a now, insert id_a eliminated)
    else if result = Cmd.TBminus then
      (save_elimination s₁ id_b now, insert id_b eliminated)
    else if result = Cmd.Tminus then
      (save_elimination (save_elimination s₁ id_a now) id_b now,
        insert id_b (insert id_a eliminated))
    else (s₁, eliminated)
  else (s₁, eliminated)

/-- The ids a command eliminates from the bout `(id_a, id_b)`, read off the
elimination branches of `handle_game_result`. -/
def elimTargets (result : Cmd) (id_a id_b : Nat) : List Nat :=
  match result with
  | .A => [id_b]
  | .B => [id_a]
  | .tie => []
  | .Aminus => [id_a]
  | .Bminus => [id_b]
  | .Aplus => []
  | .Bplus => []
  | .TAminus => [id_a]
  | .TBminus => [id_b]
  | .Tminus => [id_a, id_b]

/-- The knockout loop's view of a bout: the set of still-active entrants loses
exactly the entrants the command eliminates (`files = pool minus eliminated` in
`main`'s filtering). -/
def stepActive (active : Finset Nat) (result : Cmd) (id_a id_b : Nat) : Finset Nat :=
  active \ (elimTargets result id_a id_b).toFinset

/-- Commands that eliminate exactly one entrant of the bout
(every elimination-producing command except `T-`, which eliminates both). -/
def single_elim (result : Cmd) : Bool :=
  result ∈ [Cmd.A, Cmd.B, Cmd.Aminus, Cmd.Bminus, Cmd.TAminus, Cmd.TBminus]

/-- A run of judged bouts that is valid for the knockout loop: each bout pairs two
distinct still-active entrants and its command eliminates exactly one of them. -/
def validRun (active : Finset Nat) : List (Cmd × Nat × Nat) → Bool
  | [] => true
  | (c, a, b) :: rest =>
      decide (a ∈ active) && decide (b ∈ active) && decide (a ≠ b) && single_elim c
        && validRun (stepActive active c a b) rest

/-- The active set after a run of judged bouts. -/
def runActive (active : Finset Nat) (steps : List (Cmd × Nat × Nat)) : Finset Nat :=
  steps.foldl (fun acc step => stepActive acc step.1 step.2.1 step.2.2) active

/-! ### Pool curation (`knockout.initialize_knockout_tournament`) -/

/-- `TOP_SKEWING_POWER = 2.0` from `local_elo/knockout.py`. -/
def TOP_SKEWING_POWER : ℝ := 2

/-- One phase of pool curation: `k` draws of `random.choices(remaining, weights, k=1)`,
each followed by `remaining.pop(idx)` / `weights.pop(idx)` at the index of the
chosen element.  The parallel weight list always equals `remaining.map wf`
(both start that way and are popped at the same index), so it is recomputed here.
Returns the selected rows and the remaining rows, or `none` where the source
raises (a draw over an empty list or a nonpositive total weight). -/
noncomputable def drawWithoutReplacement (wf : FileRow → ℝ) (oracle : Nat → Nat) :
    Nat → Nat → List FileRow → Option (List FileRow × List FileRow)
  | _, 0, remaining => some ([], remaining)
  | step, k + 1, remaining =>
    if (remaining.map wf).sum ≤ 0 then none
    else
      match remaining.get? (oracle step % remaining.length) with
      | none => none
      | some chosen =>
        match drawWithoutReplacement wf oracle (step + 1) k
            (remaining.eraseIdx (oracle step % remaining.length)) with
        | none => none
        | some (sel, rest) => some (chosen :: sel, rest)

/-- The pool-curation core of `knockout.initialize_knockout_tournament` for a fresh
tournament (no persisted eliminations or pool): with fewer candidates than
`total_size` the program exits (`none`); otherwise phase 1 draws
`total_size - top_skewing_size` rows without replacement using the
`select_first_player` weight formula at the user-supplied power, and phase 2
draws `top_skewing_size` rows from the candidates not already selected, with the
same formula at the fixed `TOP_SKEWING_POWER`.  Returns the two phases'
selections. -/
noncomputable def curate_pool (all_files : List FileRow) (total_size top_skewing_size : Nat)
    (power : ℝ) (oracle₁ oracle₂ : Nat → Nat) :
    Option (List FileRow × List FileRow) :=
  if all_files.length < total_size then none
  else
    match drawWithoutReplacement (first_player_weight power) oracle₁ 0
        (total_size - top_skewing_size) all_files with
    | none => none
    | some (phase1, _) =>
      let remaining_candidates :=
        all_files.filter fun f => f.id ∉ phase1.map FileRow.id
      match drawWithoutReplacement (first_player_weight TOP_SKEWING_POWER) oracle₂ 0
          top_skewing_size remaining_candidates with
      | none => none
      | some (phase2, _) => some (phase1, phase2)

/-! ### Helper lemmas -/

/-- A list all of whose members are positive and which is nonempty has positive sum. -/
theorem sum_pos_of_forall_pos {l : List ℝ} (hpos : ∀ x ∈ l, 0 < x) (hne : l ≠ []) :
    0 < l.sum := by
  induction l with
  | nil => exact absurd rfl hne
  | cons a t ih =>
    have ha : 0 < a := hpos a (by simp)
    rcases eq_or_ne t [] with ht | ht
    · subst ht; simpa using ha
    · have := ih (fun x hx => hpos x (by simp [hx])) ht
      simp only [List.sum_cons]
      linarith

/-- `calculate_win_probability` is strictly positive for all inputs. -/
theorem calculate_win_probability_pos (elo_a elo_b : ℝ) :
    0 < calculate_win_probability elo_a elo_b := by
  unfold calculate_win_probability
  have h10 : (0 : ℝ) < (10 : ℝ) ^ ((elo_b - elo_a) / 400) :=
    Real.rpow_pos_of_pos (by norm_num) _
  positivity

/-- The `select_first_player` weight formula is strictly positive for all inputs. -/
theorem first_player_weight_pos (power : ℝ) (f : FileRow) :
    0 < first_player_weight power f := by
  unfold first_player_weight
  have h₁ := calculate_win_probability_pos f.elo DEFAULT_ELO
  have h₂ : (0 : ℝ) < (f.wins + f.losses + f.ties + 1 : ℝ) ^ power :=
    Real.rpow_pos_of_pos (by positivity) _
  positivity

/-- Removing the element at a valid index leaves a list permuted by un-consing it. -/
theorem perm_get_cons_eraseIdx :
    ∀ (l : List α) (i : Nat) (x : α), l.get? i = some x → l.Perm (x :: l.eraseIdx i)
  | a :: t, 0, x, h => by
    simp only [List.get?_cons_zero, Option.some.injEq] at h
    subst h
    simp [List.eraseIdx]
  | a :: t, i + 1, x, h => by
    simp only [List.get?_cons_succ] at h
    have ih := perm_get_cons_eraseIdx t i x h
    simpa [List.eraseIdx] using (ih.cons a).trans (List.Perm.swap x a _)

/-- Specification of one curation phase: with positive weights and enough rows, the
draw succeeds, selects exactly `k` rows, and selection plus remainder permute the
input (so nothing is duplicated and nothing is lost). -/
theorem drawWithoutReplacement_spec (wf : FileRow → ℝ) (oracle : Nat → Nat)
    (hwf : ∀ f, 0 < wf f) :
    ∀ (k : Nat) (step : Nat) (remaining : List FileRow), k ≤ remaining.length →
      ∃ sel rest, drawWithoutReplacement wf oracle step k remaining = some (sel, rest)
        ∧ sel.length = k ∧ (sel ++ rest).Perm remaining := by
  intro k
  induction k with
  | zero =>
    intro step remaining _
    exact ⟨[], remaining, rfl, rfl, by simp⟩
  | succ k ih =>
    intro step remaining hk
    have hne : remaining ≠ [] := by
      intro h
      subst h
      simp at hk
    have hsum : ¬ (remaining.map wf).sum ≤ 0 := by
      have : 0 < (remaining.map wf).sum := by
        refine sum_pos_of_forall_pos (fun x hx => ?_) (by simpa using hne)
        obtain ⟨f, _, rfl⟩ := List.mem_map.mp hx
        exact hwf f
      linarith
    have hlt : oracle step % remaining.length < remaining.length :=
      Nat.mod_lt _ (List.length_pos.mpr hne)
    obtain ⟨chosen, hget⟩ : ∃ c, remaining.get? (oracle step % remaining.length) = some c :=
      ⟨_, List.get?_eq_get hlt⟩
    have herase : (remaining.eraseIdx (oracle step % remaining.length)).length
        = remaining.length - 1 := by
      rw [List.length_eraseIdx_of_lt hlt]
    have hk' : k ≤ (remaining.eraseIdx (oracle step % remaining.length)).length := by
      omega
    obtain ⟨sel, rest, hdraw, hlen, hperm⟩ := ih (step + 1) _ hk'
    refine ⟨chosen :: sel, rest, ?_, by simp [hlen], ?_⟩
    · unfold drawWithoutReplacement
      rw [if_neg hsum]
      simp only [hget, hdraw]
    · have hcons := perm_get_cons_eraseIdx remaining _ chosen hget
      exact (hperm.cons chosen).trans hcons.symm

/-- `save_elimination` never touches the `games` table. -/
theorem save_elimination_games (s : DBState) (file_id now : Nat) :
    (save_elimination s file_id now).games = s.games := by
  unfold save_elimination
  split <;> rfl

/-- `save_elimination` never touches the `files` table. -/
theorem save_elimination_files (s : DBState) (file_id now : Nat) :
    (save_elimination s file_id now).files = s.files := by
  unfold save_elimination
  split <;> rfl

/-- Two permutations of the same rows that are both sorted by a relation that is
antisymmetric on those rows are equal (the uniqueness half of sorting). -/
theorem sorted_perm_eq {α : Type} (r : α → α → Prop) :
    ∀ l₁ l₂ : List α, l₁.Perm l₂ → l₁.Pairwise r → l₂.Pairwise r →
      (∀ a ∈ l₁, ∀ b ∈ l₁, r a b → r b a → a = b) → l₁ = l₂ := by
  intro l₁
  induction l₁ with
  | nil =>
    intro l₂ h _ _ _
    exact (h.symm.eq_nil).symm
  | cons a t₁ ih =>
    intro l₂ h hp₁ hp₂ hanti
    cases l₂ with
    | nil => exact absurd h.eq_nil (by simp)
    | cons b t₂ =>
      have hab : a = b := by
        by_contra hne
        have hat₂ : a ∈ t₂ := by
          have : a ∈ b :: t₂ := h.mem_iff.mp (by simp)
          simpa [hne] using this
        have hbt₁ : b ∈ t₁ := by
          have : b ∈ a :: t₁ := h.symm.mem_iff.mp (by simp)
          simpa [Ne.symm hne] using this
        have hrab : r a b := (List.pairwise_cons.mp hp₁).1 b hbt₁
        have hrba : r b a := (List.pairwise_cons.mp hp₂).1 a hat₂
        exact hne (hanti a (by simp) b (by simp [hbt₁]) hrab hrba)
      subst hab
      have ht := h.cons_inv
      have := ih t₂ ht (List.pairwise_cons.mp hp₁).2 (List.pairwise_cons.mp hp₂).2
        fun x hx y hy hxy hyx => hanti x (by simp [hx]) y (by simp [hy]) hxy hyx
      rw [this]

/-- The lexicographic export order is antisymmetric up to key equality. -/
theorem exportKey_eq_of_le_le {r₁ r₂ : FileRow × Option Nat}
    (h₁ : exportKeyLE r₁ r₂) (h₂ : exportKeyLE r₂ r₁) : exportKey r₁ = exportKey r₂ := by
  unfold exportKeyLE at h₁ h₂
  have e₁ : (exportKey r₁).1 = (exportKey r₂).1 := by
    rcases h₁ with h | ⟨h, _⟩ <;> rcases h₂ with h' | ⟨h', _⟩ <;> omega
  have e₂ : (exportKey r₁).2.1 = (exportKey r₂).2.1 := by
    rcases h₁ with h | ⟨_, h | ⟨h, _⟩⟩ <;> rcases h₂ with h' | ⟨_, h' | ⟨h', _⟩⟩ <;> omega
  have e₃ : (exportKey r₁).2.2 = (exportKey r₂).2.2 := by
    rcases h₁ with h | ⟨_, h | ⟨_, h⟩⟩ <;> rcases h₂ with h' | ⟨_, h' | ⟨_, h'⟩⟩ <;>
      first | omega | linarith
  exact Prod.ext e₁ (Prod.ext e₂ e₃)

/-! ### Claim theorems -/

/-- C1: for every pair of ratings and every result in `{A, B, tie}`, the Elo update
`new = old + K * (actual - expected)` with `K = 32` is exactly zero-sum:
`(newEloA - eloA) + (newEloB - eloB) = 0` for any inputs. -/
theorem update_elo_ratings_zero_sum (elo_a elo_b : ℝ) (result : GameResult) :
    ((update_elo_ratings elo_a elo_b result).1 - elo_a)
      + ((update_elo_ratings elo_a elo_b result).2 - elo_b) = 0 := by
  cases result <;>
    simp only [update_elo_ratings] <;>
    ring

/-- C10: marking an elimination is idempotent — when an elimination mark for the id
already exists, `save_elimination` leaves the persisted state unchanged (keeping
the original `eliminated_at`) and does not raise, so `save_elimination` composed
with itself (at any later timestamp) equals a single call. -/
theorem save_elimination_idempotent (s : DBState) (file_id : Nat) (t₁ t₂ : Nat) :
    save_elimination (save_elimination s file_id t₁) file_id t₂
      = save_elimination s file_id t₁ := by
  by_cases h : s.knockout_state.any fun e => e.file_id = file_id
  · simp [save_elimination, h]
  · simp [save_elimination, h]

/-- C2 (code bug): `record_game` called with the unknown id `999` does *not* fail —
SQLite foreign keys are declared but never enabled and no id check exists — and
it applies partially: the known entrant's rating and win counter are updated
(elo 1000 → 1016 after beating a 1000-rated opponent) while the unknown side's
update matches no row, yet the game record is still appended with the dangling
reference. -/
theorem record_game_unknown_id_partial_apply :
    record_game ⟨[⟨1, "a", 1000, 0, 0, 0⟩], [], []⟩ 1 999 1000 1000 GameResult.A 7
      = ⟨[⟨1, "a", 1016, 1, 0, 0⟩], [⟨1, 999, GameResult.A, 7⟩], []⟩ := by
  have hp : calculate_win_probability 1000 1000 = 1 / 2 := by
    unfold calculate_win_probability
    norm_num
  simp only [record_game, update_elo_ratings, updateWin, updateLoss, hp, K_FACTOR]
  norm_num

/-- C5: `redistribute_elo_delta` adds exactly `delta / N` to every entrant except the
excluded id, where `N` is the count of the other entrants (preserving all pairwise
rating differences among them), and is a non-fatal no-op when `|delta| < 0.01` or
`N = 0`. -/
theorem redistribute_elo_delta_spec (s : DBState) (delta : ℝ) (skip_file_id : Nat) :
    (0.01 ≤ |delta| →
      (s.files.filter fun f => f.id ≠ skip_file_id).length ≠ 0 →
      (redistribute_elo_delta s delta skip_file_id).files
        = s.files.map fun f =>
            if f.id ≠ skip_file_id then
              { f with elo := f.elo
                  + delta / ((s.files.filter fun g => g.id ≠ skip_file_id).length : ℝ) }
            else f)
    ∧ (|delta| < 0.01 → redistribute_elo_delta s delta skip_file_id = s)
    ∧ ((s.files.filter fun f => f.id ≠ skip_file_id).length = 0 →
        redistribute_elo_delta s delta skip_file_id = s) := by
  refine ⟨fun hd hc => ?_, fun hd => ?_, fun hc => ?_⟩
  · simp only [redistribute_elo_delta]
    rw [if_neg (not_lt.mpr hd), if_neg hc]
  · simp only [redistribute_elo_delta]
    rw [if_pos hd]
  · simp only [redistribute_elo_delta]
    by_cases hd : |delta| < 0.01
    · rw [if_pos hd]
    · rw [if_neg hd, if_pos hc]

/-- C5 witness: the spec scenario — removing an entrant with elo 1100 while 4
entrants remain gives `delta = 100` and each survivor gains exactly 25 elo. -/
theorem redistribute_elo_delta_spec_witness :
    (0.01 : ℝ) ≤ |(100 : ℝ)|
    ∧ (([⟨1, "a", 1000, 3, 2, 1⟩, ⟨2, "b", 1000, 0, 0, 0⟩, ⟨3, "c", 1000, 0, 0, 0⟩,
          ⟨4, "d", 1000, 0, 0, 0⟩, ⟨5, "e", 1100, 0, 0, 0⟩] : List FileRow).filter
          fun f => f.id ≠ 5).length ≠ 0
    ∧ (redistribute_elo_delta
          ⟨[⟨1, "a", 1000, 3, 2, 1⟩, ⟨2, "b", 1000, 0, 0, 0⟩, ⟨3, "c", 1000, 0, 0, 0⟩,
            ⟨4, "d", 1000, 0, 0, 0⟩, ⟨5, "e", 1100, 0, 0, 0⟩], [], []⟩ 100 5).files
        = [⟨1, "a", 1025, 3, 2, 1⟩, ⟨2, "b", 1025, 0, 0, 0⟩, ⟨3, "c", 1025, 0, 0, 0⟩,
           ⟨4, "d", 1025, 0, 0, 0⟩, ⟨5, "e", 1100, 0, 0, 0⟩] := by
  refine ⟨by norm_num, by norm_num, ?_⟩
  rw [(redistribute_elo_delta_spec
    ⟨[⟨1, "a", 1000, 3, 2, 1⟩, ⟨2, "b", 1000, 0, 0, 0⟩, ⟨3, "c", 1000, 0, 0, 0⟩,
      ⟨4, "d", 1000, 0, 0, 0⟩, ⟨5, "e", 1100, 0, 0, 0⟩], [], []⟩ 100 5).1
    (by norm_num) (by norm_num)]
  norm_num

/-- C6 (code bug): the sampling step `random.choices(pop, weights, k=1)` shared by
`select_first_player` and `select_second_player` raises (modelled as `none`) when
every weight is zero — there is no fallback to a uniform random choice anywhere
in `game.py`. -/
theorem choicesOne_zero_weights_errors :
    choicesOne [(⟨1, "a", 1000, 0, 0, 0⟩ : FileRow), ⟨2, "b", 1000, 0, 0, 0⟩]
        [0, 0] 0 = none := by
  simp [choicesOne]

/-- C3: in knockout mode every result command updates ratings with its base result
(the suffix-stripped `A`/`B`/`tie`, visible in the recorded game row) and produces
exactly the table's elimination outcome: `A` eliminates B, `B` eliminates A,
`tie` nobody, `A-` eliminates A, `B-` eliminates B, `A+`/`B+` nobody,
`TA-` eliminates A, `TB-` eliminates B, and `T-` both. -/
theorem handle_game_result_table (s : DBState) (id_a id_b : Nat) (elo_a elo_b : ℝ)
    (eliminated : Finset Nat) (now : Nat) :
    (∀ c : Cmd,
      (handle_game_result s c id_a id_b elo_a elo_b true eliminated now).1.games
        = s.games ++ [⟨id_a, id_b, normalize_result c, now⟩]
      ∧ (handle_game_result s c id_a id_b elo_a elo_b true eliminated now).1.files
        = (record_game s id_a id_b elo_a elo_b (normalize_result c) now).files)
    ∧ normalize_result Cmd.Aminus = GameResult.A
    ∧ normalize_result Cmd.Bminus = GameResult.B
    ∧ normalize_result Cmd.Aplus = GameResult.A
    ∧ normalize_result Cmd.Bplus = GameResult.B
    ∧ normalize_result Cmd.TAminus = GameResult.tie
    ∧ normalize_result Cmd.TBminus = GameResult.tie
    ∧ normalize_result Cmd.Tminus = GameResult.tie
    ∧ normalize_result Cmd.A = GameResult.A
    ∧ normalize_result Cmd.B = GameResult.B
    ∧ normalize_result Cmd.tie = GameResult.tie
    ∧ (handle_game_result s Cmd.A id_a id_b elo_a elo_b true eliminated now).2
        = insert id_b eliminated
    ∧ (handle_game_result s Cmd.B id_a id_b elo_a elo_b true eliminated now).2
        = insert id_a eliminated
    ∧ (handle_game_result s Cmd.tie id_a id_b elo_a elo_b true eliminated now).2
        = eliminated
    ∧ (handle_game_result s Cmd.Aminus id_a id_b elo_a elo_b true eliminated now).2
        = insert id_a eliminated
    ∧ (handle_game_result s Cmd.Bminus id_a id_b elo_a elo_b true eliminated now).2
        = insert id_b eliminated
    ∧ (handle_game_result s Cmd.Aplus id_a id_b elo_a elo_b true eliminated now).2
        = eliminated
    ∧ (handle_game_result s Cmd.Bplus id_a id_b elo_a elo_b true eliminated now).2
        = eliminated
    ∧ (handle_game_result s Cmd.TAminus id_a id_b elo_a elo_b true eliminated now).2
        = insert id_a eliminated
    ∧ (handle_game_result s Cmd.TBminus id_a id_b elo_a elo_b true eliminated now).2
        = insert id_b eliminated
    ∧ (handle_game_result s Cmd.Tminus id_a id_b elo_a elo_b true eliminated now).2
        = insert id_b (insert id_a eliminated) := by
  refine ⟨fun c => ?_, ?_, ?_, ?_, ?_, ?_, ?_, ?_, ?_, ?_, ?_,
    ?_, ?_, ?_, ?_, ?_, ?_, ?_, ?_, ?_, ?_⟩ <;>
    first
    | (cases c <;>
        simp [handle_game_result, save_elimination_games, save_elimination_files,
          record_game])
    | rfl

/-- A valid single-elimination step removes exactly one entrant from the active set. -/
theorem stepActive_card_single (active : Finset Nat) (c : Cmd) (a b : Nat)
    (ha : a ∈ active) (hb : b ∈ active) (hs : single_elim c = true) :
    (stepActive active c a b).card = active.card - 1 := by
  have card_one : ∀ x ∈ active, (active \ ({x} : Finset Nat)).card = active.card - 1 :=
    fun x hx => by
      rw [Finset.card_sdiff (Finset.singleton_subset_iff.mpr hx)]
      simp
  cases c with
  | A => simpa [stepActive, elimTargets] using card_one b hb
  | B => simpa [stepActive, elimTargets] using card_one a ha
  | tie => simp [single_elim] at hs
  | Aminus => simpa [stepActive, elimTargets] using card_one a ha
  | Bminus => simpa [stepActive, elimTargets] using card_one b hb
  | Aplus => simp [single_elim] at hs
  | Bplus => simp [single_elim] at hs
  | TAminus => simpa [stepActive, elimTargets] using card_one a ha
  | TBminus => simpa [stepActive, elimTargets] using card_one b hb
  | Tminus => simp [single_elim] at hs

/-- Core of C9: each bout of a valid single-elimination run removes exactly one
active entrant, so a run one step shorter than the active count ends with
exactly one entrant standing. -/
theorem validRun_completion :
    ∀ (steps : List (Cmd × Nat × Nat)) (active : Finset Nat),
      validRun active steps = true → active.card = steps.length + 1 →
      (runActive active steps).card = 1 := by
  intro steps
  induction steps with
  | nil =>
    intro active _ hcard
    simpa [runActive] using hcard
  | cons st rest ih =>
    intro active hv hcard
    obtain ⟨c, a, b⟩ := st
    simp only [validRun, Bool.and_eq_true, decide_eq_true_eq] at hv
    obtain ⟨⟨⟨⟨ha, hb⟩, _⟩, hs⟩, hrest⟩ := hv
    have hstep := stepActive_card_single active c a b ha hb hs
    have : runActive active ((c, a, b) :: rest) = runActive (stepActive active c a b) rest :=
      rfl
    rw [this]
    refine ih _ hrest ?_
    simp only [List.length_cons] at hcard
    omega

/-- C9 (amended): a knockout pool of `N ≥ 2` active entrants reaches the terminal
condition — exactly one active entrant, the winner — after exactly `N − 1` valid
single-elimination commands (`A`, `B`, `A-`, `B-`, `TA-`, `TB-`; the `T-` command
eliminates both sides and completes the tournament early). -/
theorem knockout_completion_after_n_minus_one (active : Finset Nat)
    (steps : List (Cmd × Nat × Nat)) (h₂ : 2 ≤ active.card)
    (hv : validRun active steps = true) (hlen : steps.length = active.card - 1) :
    (runActive active steps).card = 1 :=
  validRun_completion steps active hv (by omega)

/-- C9 witness: the pool `{1, 2}` with the single command `A` on the bout `(1, 2)`. -/
theorem knockout_completion_after_n_minus_one_witness :
    2 ≤ ({1, 2} : Finset Nat).card
    ∧ validRun {1, 2} [(Cmd.A, 1, 2)] = true
    ∧ [(Cmd.A, 1, 2)].length = ({1, 2} : Finset Nat).card - 1
    ∧ (runActive {1, 2} [(Cmd.A, 1, 2)]).card = 1 :=
  ⟨by decide, by decide, by decide,
    knockout_completion_after_n_minus_one {1, 2} [(Cmd.A, 1, 2)]
      (by decide) (by decide) (by decide)⟩

/-- C9 counterexample: in a pool of `N = 3` the single elimination-producing command
`T-` already reaches the terminal condition (one active entrant), so completion
does not take exactly `N − 1 = 2` elimination-producing commands. -/
theorem tminus_completes_early :
    elimTargets Cmd.Tminus 1 2 ≠ []
    ∧ (runActive {1, 2, 3} [(Cmd.Tminus, 1, 2)]).card = 1
    ∧ [(Cmd.Tminus, 1, 2)].length ≠ ({1, 2, 3} : Finset Nat).card - 1 := by
  refine ⟨by decide, by decide, by decide⟩

/-- C4: pool curation with total size `T`, top-skew size `Y ≤ T` and at least `T`
candidates (with distinct ids) succeeds and selects `T − Y` entrants in the
custom-weighted phase and `Y` entrants in the top-skew phase from the remaining
candidates — each draw removing the chosen candidate — for a pool of exactly `T`
entrants with pairwise-distinct ids and no overlap between the phases. -/
theorem curate_pool_selects_unique (all_files : List FileRow)
    (total_size top_skewing_size : Nat) (power : ℝ) (o₁ o₂ : Nat → Nat)
    (hids : (all_files.map FileRow.id).Nodup)
    (htop : top_skewing_size ≤ total_size)
    (htotal : total_size ≤ all_files.length) :
    ∃ phase1 phase2,
      curate_pool all_files total_size top_skewing_size power o₁ o₂ = some (phase1, phase2)
        ∧ phase1.length = total_size - top_skewing_size
        ∧ phase2.length = top_skewing_size
        ∧ ((phase1 ++ phase2).map FileRow.id).Nodup
        ∧ (phase1 ++ phase2).length = total_size := by
  obtain ⟨p1, rest₁, hd1, hl1, hp1⟩ :=
    drawWithoutReplacement_spec (first_player_weight power) o₁
      (first_player_weight_pos power) (total_size - top_skewing_size) 0 all_files
      (le_trans (Nat.sub_le _ _) htotal)
  have hids₁ : (p1.map FileRow.id ++ rest₁.map FileRow.id).Nodup := by
    have := ((hp1.map FileRow.id).nodup_iff).mpr hids
    simpa using this
  obtain ⟨hnp1, hnr1, hdisj⟩ := List.nodup_append.mp hids₁
  have hfilter_p1 : (p1.filter fun f => f.id ∉ p1.map FileRow.id) = [] :=
    List.filter_eq_nil_iff.mpr fun a ha => by
      simp only [decide_not, Bool.not_eq_true', decide_eq_false_iff_not, not_not]
      exact List.mem_map_of_mem FileRow.id ha
  have hfilter_r1 : (rest₁.filter fun f => f.id ∉ p1.map FileRow.id) = rest₁ :=
    List.filter_eq_self.mpr fun a ha => by
      simp only [decide_not, Bool.not_eq_true', decide_eq_false_iff_not]
      exact fun hmem => hdisj hmem (List.mem_map_of_mem FileRow.id ha)
  have hremperm : (all_files.filter fun f => f.id ∉ p1.map FileRow.id).Perm rest₁ := by
    have h := (hp1.filter fun f => decide (f.id ∉ p1.map FileRow.id)).symm
    rw [List.filter_append, hfilter_p1, hfilter_r1, List.nil_append] at h
    exact h
  have hlen_rest : rest₁.length = all_files.length - (total_size - top_skewing_size) := by
    have := hp1.length_eq
    simp only [List.length_append, hl1] at this
    omega
  have hlen_rem : top_skewing_size
      ≤ (all_files.filter fun f => f.id ∉ p1.map FileRow.id).length := by
    rw [hremperm.length_eq, hlen_rest]
    omega
  obtain ⟨p2, rest₂, hd2, hl2, hp2⟩ :=
    drawWithoutReplacement_spec (first_player_weight TOP_SKEWING_POWER) o₂
      (first_player_weight_pos TOP_SKEWING_POWER) top_skewing_size 0
      (all_files.filter fun f => f.id ∉ p1.map FileRow.id) hlen_rem
  have hrem_ids : ((all_files.filter fun f => f.id ∉ p1.map FileRow.id).map
      FileRow.id).Nodup :=
    hids.sublist ((List.filter_sublist all_files).map FileRow.id)
  have hnp2 : (p2.map FileRow.id).Nodup := by
    have h := ((hp2.map FileRow.id).nodup_iff).mpr hrem_ids
    rw [List.map_append] at h
    exact (List.nodup_append.mp h).1
  have hdisj₂ : (p1.map FileRow.id).Disjoint (p2.map FileRow.id) := by
    intro x hx₁ hx₂
    obtain ⟨a, ha, rfl⟩ := List.mem_map.mp hx₂
    have ha_rem : a ∈ all_files.filter fun f => f.id ∉ p1.map FileRow.id :=
      hp2.mem_iff.mp (List.mem_append.mpr (Or.inl ha))
    have := List.of_mem_filter ha_rem
    simp only [decide_not, Bool.not_eq_true', decide_eq_false_iff_not] at this
    exact this hx₁
  refine ⟨p1, p2, ?_, hl1, hl2, ?_, ?_⟩
  · unfold curate_pool
    rw [if_neg (not_lt.mpr htotal)]
    simp only [hd1, hd2]
  · rw [List.map_append]
    exact List.nodup_append.mpr ⟨hnp1, hnp2, hdisj₂⟩
  · simp only [List.length_append, hl1, hl2]
    omega

/-- C4 witness: five candidates with ids 1–5, `total_size = 5`, `top_skewing_size = 2`:
3 entrants from the custom-weighted phase plus 2 from the top-skew phase, exactly 5
unique ids, no overlap. -/
theorem curate_pool_selects_unique_witness :
    (([⟨1, "a", 1000, 0, 0, 0⟩, ⟨2, "b", 1000, 0, 0, 0⟩, ⟨3, "c", 1000, 0, 0, 0⟩,
        ⟨4, "d", 1000, 0, 0, 0⟩, ⟨5, "e", 1000, 0, 0, 0⟩] : List FileRow).map
        FileRow.id).Nodup
    ∧ 2 ≤ 5
    ∧ ([⟨1, "a", 1000, 0, 0, 0⟩, ⟨2, "b", 1000, 0, 0, 0⟩, ⟨3, "c", 1000, 0, 0, 0⟩,
        ⟨4, "d", 1000, 0, 0, 0⟩, ⟨5, "e", 1000, 0, 0, 0⟩] : List FileRow).length = 5
    ∧ ∃ phase1 phase2,
        curate_pool
          [⟨1, "a", 1000, 0, 0, 0⟩, ⟨2, "b", 1000, 0, 0, 0⟩, ⟨3, "c", 1000, 0, 0, 0⟩,
           ⟨4, "d", 1000, 0, 0, 0⟩, ⟨5, "e", 1000, 0, 0, 0⟩] 5 2 1
          (fun _ => 0) (fun _ => 0) = some (phase1, phase2)
          ∧ phase1.length = 5 - 2
          ∧ phase2.length = 2
          ∧ ((phase1 ++ phase2).map FileRow.id).Nodup
          ∧ (phase1 ++ phase2).length = 5 :=
  ⟨by decide, by decide, by decide,
    curate_pool_selects_unique
      [⟨1, "a", 1000, 0, 0, 0⟩, ⟨2, "b", 1000, 0, 0, 0⟩, ⟨3, "c", 1000, 0, 0, 0⟩,
       ⟨4, "d", 1000, 0, 0, 0⟩, ⟨5, "e", 1000, 0, 0, 0⟩] 5 2 1 (fun _ => 0) (fun _ => 0)
      (by decide) (by decide) (by decide)⟩

/-- C7 counterexample: `SELECT id FROM files ORDER BY elo DESC` requests no secondary
sort key, so for two entrants with equal Elo both result orders are permitted by
the query and they give different rank maps — the code does not determine a
stable tiebreak. -/
theorem get_rankings_tie_order_unspecified :
    get_rankings_spec ⟨[⟨1, "a", 1000, 0, 0, 0⟩, ⟨2, "b", 1000, 0, 0, 0⟩], [], []⟩ [1, 2]
    ∧ get_rankings_spec ⟨[⟨1, "a", 1000, 0, 0, 0⟩, ⟨2, "b", 1000, 0, 0, 0⟩], [], []⟩ [2, 1]
    ∧ rankMap [1, 2] ≠ rankMap [2, 1] := by
  refine ⟨⟨[⟨1, "a", 1000, 0, 0, 0⟩, ⟨2, "b", 1000, 0, 0, 0⟩], List.Perm.refl _, ?_, rfl⟩,
    ⟨[⟨2, "b", 1000, 0, 0, 0⟩, ⟨1, "a", 1000, 0, 0, 0⟩], List.Perm.swap _ _ _, ?_, rfl⟩,
    by decide⟩ <;>
    simp [SortedDescBy]

/-- C7 (amended): `get_rankings` is ordered Elo-descending, and whenever the stored
Elo values are pairwise distinct the permitted result — hence the rank map — is
uniquely determined; only the relative order of equal-Elo entrants is left
unspecified by the query. -/
theorem get_rankings_deterministic_of_distinct_elos (s : DBState)
    (helo : (s.files.map FileRow.elo).Nodup) (out₁ out₂ : List Nat)
    (h₁ : get_rankings_spec s out₁) (h₂ : get_rankings_spec s out₂) :
    out₁ = out₂ := by
  obtain ⟨l₁, hperm₁, hsort₁, rfl⟩ := h₁
  obtain ⟨l₂, hperm₂, hsort₂, rfl⟩ := h₂
  have hl : l₁ = l₂ := by
    refine sorted_perm_eq (fun f g => FileRow.elo g ≤ FileRow.elo f) l₁ l₂
      (hperm₁.trans hperm₂.symm) hsort₁ hsort₂ ?_
    intro a ha b hb hab hba
    have helo₁ : (l₁.map FileRow.elo).Nodup := ((hperm₁.map FileRow.elo).nodup_iff).mpr helo
    exact List.inj_on_of_nodup_map helo₁ ha hb (le_antisymm hba hab)
  rw [hl]

/-- C7 witness: two entrants with distinct Elo values 1000 and 1200; the only
permitted ranking lists the 1200-rated entrant first. -/
theorem get_rankings_deterministic_of_distinct_elos_witness :
    (([⟨1, "a", 1000, 0, 0, 0⟩, ⟨2, "b", 1200, 0, 0, 0⟩] : List FileRow).map
        FileRow.elo).Nodup
    ∧ get_rankings_spec ⟨[⟨1, "a", 1000, 0, 0, 0⟩, ⟨2, "b", 1200, 0, 0, 0⟩], [], []⟩ [2, 1]
    ∧ ([2, 1] : List Nat) = [2, 1] := by
  have hnodup : (([⟨1, "a", 1000, 0, 0, 0⟩, ⟨2, "b", 1200, 0, 0, 0⟩] : List FileRow).map
      FileRow.elo).Nodup := by
    simp
  have hspec : get_rankings_spec
      ⟨[⟨1, "a", 1000, 0, 0, 0⟩, ⟨2, "b", 1200, 0, 0, 0⟩], [], []⟩ [2, 1] :=
    ⟨[⟨2, "b", 1200, 0, 0, 0⟩, ⟨1, "a", 1000, 0, 0, 0⟩], List.Perm.swap _ _ _,
      by norm_num [SortedDescBy, List.pairwise_cons], rfl⟩
  exact ⟨hnodup, hspec,
    get_rankings_deterministic_of_distinct_elos
      ⟨[⟨1, "a", 1000, 0, 0, 0⟩, ⟨2, "b", 1200, 0, 0, 0⟩], [], []⟩ hnodup [2, 1] [2, 1]
      hspec hspec⟩

/-- C8 counterexample: two eliminated entrants sharing the same elimination
timestamp and the same Elo can be exported in either order — the `ORDER BY` of
`export_knockout_results` leaves full-key ties unspecified, so the export order
is not a function of the stored state. -/
theorem export_results_tie_order_unspecified :
    export_results_spec
      ⟨[⟨1, "a", 1000, 0, 0, 0⟩, ⟨2, "b", 1000, 0, 0, 0⟩, ⟨3, "c", 1200, 0, 0, 0⟩],
        [], [⟨1, 5⟩, ⟨2, 5⟩]⟩
      [(⟨3, "c", 1200, 0, 0, 0⟩, none), (⟨1, "a", 1000, 0, 0, 0⟩, some 5),
        (⟨2, "b", 1000, 0, 0, 0⟩, some 5)]
    ∧ export_results_spec
      ⟨[⟨1, "a", 1000, 0, 0, 0⟩, ⟨2, "b", 1000, 0, 0, 0⟩, ⟨3, "c", 1200, 0, 0, 0⟩],
        [], [⟨1, 5⟩, ⟨2, 5⟩]⟩
      [(⟨3, "c", 1200, 0, 0, 0⟩, none), (⟨2, "b", 1000, 0, 0, 0⟩, some 5),
        (⟨1, "a", 1000, 0, 0, 0⟩, some 5)]
    ∧ [(⟨3, "c", 1200, 0, 0, 0⟩, none), ((⟨1, "a", 1000, 0, 0, 0⟩ : FileRow),
        some (5 : Nat)), (⟨2, "b", 1000, 0, 0, 0⟩, some 5)]
      ≠ [(⟨3, "c", 1200, 0, 0, 0⟩, none), (⟨2, "b", 1000, 0, 0, 0⟩, some 5),
        (⟨1, "a", 1000, 0, 0, 0⟩, some 5)] := by
  refine ⟨⟨?_, ?_⟩, ⟨?_, ?_⟩, ?_⟩
  · exact (List.Perm.swap ((⟨1, "a", 1000, 0, 0, 0⟩ : FileRow), some (5 : Nat))
        (⟨3, "c", 1200, 0, 0, 0⟩, none) [(⟨2, "b", 1000, 0, 0, 0⟩, some 5)]).trans
      ((List.Perm.swap ((⟨2, "b", 1000, 0, 0, 0⟩ : FileRow), some (5 : Nat))
        (⟨3, "c", 1200, 0, 0, 0⟩, none) []).cons (⟨1, "a", 1000, 0, 0, 0⟩, some 5))
  · norm_num [exportKeyLE, exportKey, List.pairwise_cons]
  · exact ((List.Perm.swap ((⟨2, "b", 1000, 0, 0, 0⟩ : FileRow), some (5 : Nat))
        (⟨3, "c", 1200, 0, 0, 0⟩, none) [(⟨1, "a", 1000, 0, 0, 0⟩, some 5)]).trans
      ((List.Perm.swap ((⟨1, "a", 1000, 0, 0, 0⟩ : FileRow), some (5 : Nat))
        (⟨3, "c", 1200, 0, 0, 0⟩, none) []).cons (⟨2, "b", 1000, 0, 0, 0⟩, some 5))).trans
      (List.Perm.swap ((⟨1, "a", 1000, 0, 0, 0⟩ : FileRow), some (5 : Nat))
        (⟨2, "b", 1000, 0, 0, 0⟩, some 5) [(⟨3, "c", 1200, 0, 0, 0⟩, none)])
  · norm_num [exportKeyLE, exportKey, List.pairwise_cons]
  · intro h
    have := congrArg (fun l => l.map fun p => (Prod.fst p).id) h
    simp at this

/-- C8 (amended): the export ordering sorts by "not eliminated" first, then
elimination time descending, then Elo descending, and is uniquely determined —
a function of stored state — whenever no two entrants share that whole key;
the order of rows with identical keys is left unspecified by the query. -/
theorem export_results_deterministic_of_distinct_keys (s : DBState)
    (hkey : ((s.files.map (joinElim s)).map exportKey).Nodup)
    (out₁ out₂ : List (FileRow × Option Nat))
    (h₁ : export_results_spec s out₁) (h₂ : export_results_spec s out₂) :
    out₁ = out₂ := by
  obtain ⟨hperm₁, hsort₁⟩ := h₁
  obtain ⟨hperm₂, hsort₂⟩ := h₂
  refine sorted_perm_eq exportKeyLE out₁ out₂ (hperm₁.trans hperm₂.symm) hsort₁ hsort₂ ?_
  intro a ha b hb hab hba
  have hkeys₁ : (out₁.map exportKey).Nodup := ((hperm₁.map exportKey).nodup_iff).mpr hkey
  exact List.inj_on_of_nodup_map hkeys₁ ha hb (exportKey_eq_of_le_le hab hba)

/-- C8 witness: one eliminated entrant and one winner have distinct export keys, so
the exported order (winner first, then the eliminated entrant) is forced. -/
theorem export_results_deterministic_of_distinct_keys_witness :
    ((([⟨1, "a", 1000, 0, 0, 0⟩, ⟨2, "b", 1200, 0, 0, 0⟩] : List FileRow).map
        (joinElim ⟨[⟨1, "a", 1000, 0, 0, 0⟩, ⟨2, "b", 1200, 0, 0, 0⟩], [], [⟨1, 5⟩]⟩)).map
        exportKey).Nodup
    ∧ export_results_spec ⟨[⟨1, "a", 1000, 0, 0, 0⟩, ⟨2, "b", 1200, 0, 0, 0⟩], [], [⟨1, 5⟩]⟩
        [(⟨2, "b", 1200, 0, 0, 0⟩, none), (⟨1, "a", 1000, 0, 0, 0⟩, some 5)]
    ∧ [((⟨2, "b", 1200, 0, 0, 0⟩ : FileRow), (none : Option Nat)),
        (⟨1, "a", 1000, 0, 0, 0⟩, some 5)]
      = [(⟨2, "b", 1200, 0, 0, 0⟩, none), (⟨1, "a", 1000, 0, 0, 0⟩, some 5)] := by
  have hkey : ((([⟨1, "a", 1000, 0, 0, 0⟩, ⟨2, "b", 1200, 0, 0, 0⟩] : List FileRow).map
      (joinElim ⟨[⟨1, "a", 1000, 0, 0, 0⟩, ⟨2, "b", 1200, 0, 0, 0⟩], [], [⟨1, 5⟩]⟩)).map
      exportKey).Nodup := by
    simp [joinElim, List.find?, exportKey, Prod.ext_iff]
  have hspec : export_results_spec
      ⟨[⟨1, "a", 1000, 0, 0, 0⟩, ⟨2, "b", 1200, 0, 0, 0⟩], [], [⟨1, 5⟩]⟩
      [(⟨2, "b", 1200, 0, 0, 0⟩, none), (⟨1, "a", 1000, 0, 0, 0⟩, some 5)] := by
    constructor
    · exact List.Perm.swap ((⟨1, "a", 1000, 0, 0, 0⟩ : FileRow), some (5 : Nat))
        (⟨2, "b", 1200, 0, 0, 0⟩, none) []
    · norm_num [exportKeyLE, exportKey, List.pairwise_cons]
  exact ⟨hkey, hspec,
    export_results_deterministic_of_distinct_keys
      ⟨[⟨1, "a", 1000, 0, 0, 0⟩, ⟨2, "b", 1200, 0, 0, 0⟩], [], [⟨1, 5⟩]⟩ hkey _ _ hspec hspec⟩

end LocalElo
